import Mathlib

/-!
Verification of `weaving_sim.py`, a turtle weaving simulator.

The Python source is shallowly embedded below: Python `int` becomes `Int`,
Python `float` parameters become `ℚ` (the arithmetic in this program stays
exact on the inputs of interest), Python strings become `String` or
`List Char`, and functions that can raise `ValueError` return
`Except String`.  Builtin Python operations used by the source
(`str.strip`, `str.lower`, `int(s, 16)`, `round`, `//`, `%`) are modelled
by explicit executable definitions (`pyStrip`, `pyLower`, `pyIntHex`,
`pyRound`, `pyFloorDiv`, `pyMod`), restricted to ASCII.
-/

namespace WeavingSim

/-- Python string whitespace (ASCII part): space, tab, newline, carriage
return, vertical tab, form feed. -/
def isPySpace (c : Char) : Bool :=
  c = ' ' || c = '\t' || c = '\n' || c = '\r' || c = '\x0b' || c = '\x0c'

/-- Python `str.strip()`: remove leading and trailing whitespace. -/
def pyStrip (cs : List Char) : List Char :=
  ((cs.dropWhile isPySpace).reverse.dropWhile isPySpace).reverse

/-- Python `str.lower()` on one character (ASCII letters). -/
def pyLower (c : Char) : Char :=
  if 'A' ≤ c ∧ c ≤ 'Z' then Char.ofNat (c.toNat + 32) else c

/-- Value of a single hexadecimal digit (either case), `none` otherwise. -/
def hexVal? (c : Char) : Option Nat :=
  if '0' ≤ c ∧ c ≤ '9' then some (c.toNat - 48)
  else if 'a' ≤ c ∧ c ≤ 'f' then some (c.toNat - 87)
  else if 'A' ≤ c ∧ c ≤ 'F' then some (c.toNat - 55)
  else none

/-- Accumulating scan of hex digits, allowing a single `_` between digits,
as Python's integer literal grammar does. -/
def parseDigitsAux : Nat → List Char → Option Nat
  | acc, [] => some acc
  | acc, '_' :: c :: rest =>
    match hexVal? c with
    | some d => parseDigitsAux (16 * acc + d) rest
    | none => none
  | acc, c :: rest =>
    match hexVal? c with
    | some d => parseDigitsAux (16 * acc + d) rest
    | none => none

/-- Nonempty digit sequence of Python's base-16 literal grammar; the
leading character must be a hex digit (no leading underscore). -/
def parseDigits : List Char → Option Nat
  | [] => none
  | c :: rest =>
    match hexVal? c with
    | some d => parseDigitsAux d rest
    | none => none

/-- Optional sign accepted by Python `int(s, 16)`. -/
def pySign : List Char → Int × List Char
  | '+' :: rest => (1, rest)
  | '-' :: rest => (-1, rest)
  | t => (1, t)

/-- Optional `0x`/`0X` prefix accepted by Python `int(s, 16)`; a single
underscore may follow the prefix. -/
def pyDrop0x : List Char → List Char
  | '0' :: 'x' :: rest => (match rest with | '_' :: r2 => r2 | r2 => r2)
  | '0' :: 'X' :: rest => (match rest with | '_' :: r2 => r2 | r2 => r2)
  | t => t

/-- Model of Python `int(s, 16)` (ASCII): strips whitespace, accepts an
optional sign and an optional `0x`/`0X` prefix, then hex digits possibly
separated by single underscores.  Raises `ValueError` otherwise. -/
def pyIntHex (cs : List Char) : Except String Int :=
  let t := pySign (pyStrip cs)
  match parseDigits (pyDrop0x t.2) with
  | some n => .ok (t.1 * (n : Int))
  | none => .error "invalid literal for int() with base 16"

/-- Python `round` on an exact rational: round half to even. -/
def pyRound (q : ℚ) : Int :=
  let f := ⌊q⌋
  let frac := q - f
  if frac < 1/2 then f
  else if 1/2 < frac then f + 1
  else if f % 2 = 0 then f else f + 1

/-- Python `//` on integers (floor division). -/
def pyFloorDiv (a b : Int) : Int := Int.fdiv a b

/-- Python `%` on integers (floored modulo; nonnegative for a positive
right operand). -/
def pyMod (a b : Int) : Int := Int.fmod a b

instance instDecEqExcept {ε α : Type} [DecidableEq ε] [DecidableEq α] :
    DecidableEq (Except ε α) := fun x y =>
  match x, y with
  | .error e1, .error e2 =>
    if h : e1 = e2 then isTrue (by rw [h]) else isFalse (fun hc => h (Except.error.inj hc))
  | .ok a1, .ok a2 =>
    if h : a1 = a2 then isTrue (by rw [h]) else isFalse (fun hc => h (Except.ok.inj hc))
  | .error _, .ok _ => isFalse (fun hc => Except.noConfusion hc)
  | .ok _, .error _ => isFalse (fun hc => Except.noConfusion hc)

/-! ## Sequence expander (`thread_sequence`, weaving_sim.py lines 20-50) -/

/-- Loop `for color, n in runs: if n <= 0: raise ...; seq.extend([color] * n)`
of `thread_sequence`: builds the base sequence, failing at the first run
whose length is not positive. -/
def buildBase : List (String × Int) → Except String (List String)
  | [] => .ok []
  | (color, n) :: rest =>
    if n ≤ 0 then .error "run lengths must be > 0"
    else
      match buildBase rest with
      | .error e => .error e
      | .ok tail => .ok (List.replicate n.toNat color ++ tail)

/-- Loop `while len(out) < count: out.extend(seq)` of `thread_sequence`.
The fuel argument only bounds the number of iterations: when `seq` is
nonempty (the only way the loop is reached) every iteration adds at least
one element, so `count` units of fuel always reach the loop's exit
condition. -/
def extendLoop (seq : List String) (count : Nat) : List String → Nat → List String
  | out, 0 => out
  | out, fuel + 1 =>
    if out.length < count then extendLoop seq count (out ++ seq) fuel else out

/-- Python `thread_sequence(runs, count)` (the spec's `expand_sequence`):
expand color runs into a repeating list of exactly `count` values. -/
def thread_sequence (runs : List (String × Int)) (count : Int) : Except String (List String) :=
  if count ≤ 0 then .ok []
  else
    match buildBase runs with
    | .error e => .error e
    | .ok seq =>
      if seq = [] then .error "runs must not be empty"
      else .ok ((extendLoop seq count.toNat [] count.toNat).take count.toNat)

/-! ## Color utilities (weaving_sim.py lines 61-92) -/

/-- Step `if s.startswith("#"): s = s[1:]` of `_hex_to_rgb`: drop one
leading `#` when present. -/
def dropHash (cs : List Char) : List Char :=
  match cs with
  | c :: rest => if c = '#' then rest else c :: rest
  | [] => []

/-- Python `_hex_to_rgb(h)`: strip whitespace, drop one leading `#`,
require exactly 6 remaining characters, and parse the three 2-character
groups with `int(-, 16)`. -/
def hex_to_rgb (h : String) : Except String (Int × Int × Int) :=
  let s := dropHash (pyStrip h.data)
  if s.length ≠ 6 then .error ("Expected hex color like #RRGGBB, got: " ++ h)
  else
    match pyIntHex (s.take 2) with
    | .error e => .error e
    | .ok r =>
      match pyIntHex ((s.drop 2).take 2) with
      | .error e => .error e
      | .ok g =>
        match pyIntHex ((s.drop 4).take 2) with
        | .error e => .error e
        | .ok b => .ok (r, g, b)

/-- Lowercase hexadecimal digit for a value below 16, as produced by
Python's `x` format code. -/
def hexChar (d : Nat) : Char :=
  if d < 10 then Char.ofNat (48 + d) else Char.ofNat (87 + d)

/-- Two-digit lowercase hex rendering (`f"{v:02x}"` for `v` in `[0, 255]`). -/
def toHex2 (n : Nat) : List Char :=
  [hexChar (n / 16), hexChar (n % 16)]

/-- One channel of `_rgb_to_hex`: `max(0, min(255, int(round(r))))`. -/
def clampChannel (q : ℚ) : Int :=
  max 0 (min 255 (pyRound q))

/-- Python `_rgb_to_hex(r, g, b)`: clamp each rounded channel to `[0, 255]`
and format as `#rrggbb`. -/
def rgb_to_hex (r g b : ℚ) : String :=
  String.mk ('#' :: (toHex2 (clampChannel r).toNat ++ toHex2 (clampChannel g).toNat
    ++ toHex2 (clampChannel b).toNat))

/-- Python `shade(color_hex, factor)`: blend toward white for
`factor >= 1.0`, scale toward black for `factor < 1.0`. -/
def shade (color_hex : String) (factor : ℚ) : Except String String :=
  match hex_to_rgb color_hex with
  | .error e => .error e
  | .ok (r, g, b) =>
    if 1 ≤ factor then
      let k := factor - 1
      .ok (rgb_to_hex ((r : ℚ) + (255 - (r : ℚ)) * k) ((g : ℚ) + (255 - (g : ℚ)) * k)
        ((b : ℚ) + (255 - (b : ℚ)) * k))
    else
      .ok (rgb_to_hex ((r : ℚ) * factor) ((g : ℚ) * factor) ((b : ℚ) * factor))

/-! ## Pattern generation (weaving_sim.py lines 100-141) -/

/-- Python dataclass `PatternConfig`. -/
structure PatternConfig where
  weave_over : Int := 3
  weave_under : Int := 1
  weave_step : Int := 1
  broken_block : Option Int := none
  broken_axes : String := "both"
deriving DecidableEq

/-- Python `make_pattern(rows, cols, pcfg)`: the twill / broken-twill
over-under matrix. -/
def make_pattern (rows cols : Nat) (pcfg : PatternConfig) : List (List Bool) :=
  let over := max 1 pcfg.weave_over
  let under := max 1 pcfg.weave_under
  let period := over + under
  let step := if pcfg.weave_step = 0 then 1 else pcfg.weave_step
  let broken : Option Int :=
    match pcfg.broken_block with
    | some blk => if blk ≤ 0 then none else some blk
    | none => none
  let axes := pyStrip ((pcfg.broken_axes.data).map pyLower)
  (List.range rows).map fun (r : Nat) =>
    let dir_r : Int :=
      match broken with
      | some blk =>
        if axes = "rows".data ∨ axes = "both".data then
          (if pyMod (pyFloorDiv (r : Int) blk) 2 = 0 then 1 else -1)
        else 1
      | none => 1
    (List.range cols).map fun (c : Nat) =>
      let dir_c : Int :=
        match broken with
        | some blk =>
          if axes = "cols".data ∨ axes = "both".data then
            (if pyMod (pyFloorDiv (c : Int) blk) 2 = 0 then 1 else -1)
          else 1
        | none => 1
      let direction := dir_r * dir_c
      let phase := pyMod ((c : Int) - direction * (r : Int) * step) period
      decide (phase < over)

/-! ## Renderer boundary (weaving_sim.py lines 149-189) -/

/-- Python dataclass `RenderConfig`. -/
structure RenderConfig where
  rows : Int := 24
  cols : Int := 24
  cell : Int := 18
  thread : Int := 9
  margin : Int := 40
  speed : Int := 0
  show_grid : Bool := false
deriving DecidableEq

/-- Python dataclass `ColorConfig`. -/
structure ColorConfig where
  warp_thread_colors : List String
  weft_thread_colors : List String
  background : String := "#f7fafc"
  grid : String := "#e2e8f0"
  highlight_factor : ℚ := 1.18
  shadow_factor : ℚ := 0.72

/-- Validation prefix of Python `render_weave` (lines 183-189), the part
the renderer contract is about.  The remainder of `render_weave` only
issues turtle drawing calls (screen setup, pen moves, line segments) and
is reached exactly when this prefix succeeds. -/
def render_weave_checks (pattern : List (List Bool)) (rcfg : RenderConfig)
    (ccfg : ColorConfig) : Except String Unit :=
  if (pattern.length : Int) ≠ rcfg.rows ∨ (pattern ≠ [] ∧ ((pattern.headD []).length : Int) ≠ rcfg.cols) then
    .error "Pattern dimensions must match RenderConfig rows/cols"
  else if (ccfg.warp_thread_colors.length : Int) ≠ rcfg.cols then
    .error "warp_thread_colors length must equal cols"
  else if (ccfg.weft_thread_colors.length : Int) ≠ rcfg.rows then
    .error "weft_thread_colors length must equal rows"
  else .ok ()

/-! ## Definitions taken from the specification's wording, for comparison
against the embedded code. -/

/-- Base expansion named by the spec: each run's value repeated its length
times, in order, concatenated. -/
def base_expansion (runs : List (String × Int)) : List String :=
  (runs.map fun p => List.replicate p.2.toNat p.1).flatten

/-- Cell formula of claim C1, written from the claim's words: normalized
over/under/step, per-axis direction multipliers active only when a
positive `broken_block` is present and the normalized axes selector names
that axis, and `phase = (c - direction * r * step) mod period` with the
floored nonnegative modulo. -/
def pattern_cell_spec (r c : Nat) (pcfg : PatternConfig) : Bool :=
  let over := max 1 pcfg.weave_over
  let under := max 1 pcfg.weave_under
  let period := over + under
  let step := if pcfg.weave_step = 0 then 1 else pcfg.weave_step
  let axes := pyStrip ((pcfg.broken_axes.data).map pyLower)
  let dir_r : Int :=
    match pcfg.broken_block with
    | some blk =>
      if 0 < blk ∧ (axes = "rows".data ∨ axes = "both".data) then
        (if pyMod (pyFloorDiv (r : Int) blk) 2 = 0 then 1 else -1)
      else 1
    | none => 1
  let dir_c : Int :=
    match pcfg.broken_block with
    | some blk =>
      if 0 < blk ∧ (axes = "cols".data ∨ axes = "both".data) then
        (if pyMod (pyFloorDiv (c : Int) blk) 2 = 0 then 1 else -1)
      else 1
    | none => 1
  let direction := dir_r * dir_c
  let phase := pyMod ((c : Int) - direction * (r : Int) * step) period
  decide (phase < over)

/-- Channel blend formula of claim C6, written from the claim's words. -/
def blend_spec (old : Int) (factor : ℚ) : ℚ :=
  if 1 ≤ factor then (old : ℚ) + (255 - (old : ℚ)) * (factor - 1)
  else (old : ℚ) * factor

/-- Channel normalization of claim C7, written from the claim's words:
clamp to `[0, 255]` and round to the nearest integer, ties to even. -/
def clamp_round_spec (q : ℚ) : Int :=
  pyRound (max 0 (min 255 q))

/-- Lowercase hexadecimal digits. -/
def lowerHexChars : List Char := "0123456789abcdef".data

/-- Hexadecimal digits of both cases. -/
def allHexChars : List Char := "0123456789abcdefABCDEF".data

/-- Numeric value of a hexadecimal digit (0 for other characters). -/
def hvNat (c : Char) : Nat := (hexVal? c).getD 0

/-- Valid color string per the spec's data model: six hexadecimal digits
with an optional leading `#`. -/
def valid_color (s : String) : Bool :=
  let cs := dropHash s.data
  cs.length == 6 && cs.all fun c => decide (c ∈ allHexChars)

end WeavingSim

namespace WeavingSim

/-! ## Helper lemmas -/

theorem getD_map_range {α : Type} (f : Nat → α) (n i : Nat) (d : α) (h : i < n) :
    ((List.range n).map f).getD i d = f i := by
  rw [List.getD_eq_getElem _ _ (by simpa using h)]
  rw [List.getElem_map, List.getElem_range]

/-! ## C1: make_pattern -/

/-- C1: for every `rows ≥ 0`, `cols ≥ 0` and every `PatternConfig`,
`make_pattern` returns a `rows × cols` matrix whose cell `(r, c)` is
`phase < over` with `over`, `under`, `period`, `step`, the broken-twill
direction multipliers and `phase` as described by the claim
(`pattern_cell_spec`), the phase being computed with the floored,
always-nonnegative modulo. -/
theorem make_pattern_correct (rows cols : Nat) (pcfg : PatternConfig) :
    (make_pattern rows cols pcfg).length = rows ∧
    (∀ r, r < rows → ((make_pattern rows cols pcfg).getD r []).length = cols) ∧
    (∀ r c, r < rows → c < cols →
      ((make_pattern rows cols pcfg).getD r []).getD c false = pattern_cell_spec r c pcfg) ∧
    (∀ a b : Int, 0 < b → 0 ≤ pyMod a b ∧ pyMod a b < b) := by
  refine ⟨by simp [make_pattern], ?_, ?_, ?_⟩
  · intro r hr
    simp only [make_pattern]
    rw [getD_map_range _ _ _ _ hr]
    simp
  · intro r c hr hc
    simp only [make_pattern]
    rw [getD_map_range _ _ _ _ hr, getD_map_range _ _ _ _ hc]
    simp only [pattern_cell_spec]
    rcases hbb : pcfg.broken_block with _ | blk
    · simp only [hbb]
    · simp only [hbb]
      by_cases hble : blk ≤ 0
      · have h0 : ¬ (0 < blk) := by omega
        simp [hble, h0]
      · have h0 : 0 < blk := by omega
        simp [hble, h0]
  · intro a b hb
    exact ⟨Int.fmod_nonneg' a hb, Int.fmod_lt_of_pos a hb⟩

theorem make_pattern_correct_witness :
    ((make_pattern 2 3 ⟨3, 1, 1, none, "both"⟩).getD 1 []).getD 2 false
        = pattern_cell_spec 1 2 ⟨3, 1, 1, none, "both"⟩ ∧
    (0 ≤ pyMod (-7) 4 ∧ pyMod (-7) 4 < 4) :=
  ⟨(make_pattern_correct 2 3 ⟨3, 1, 1, none, "both"⟩).2.2.1 1 2 (by decide) (by decide),
   (make_pattern_correct 2 3 ⟨3, 1, 1, none, "both"⟩).2.2.2 (-7) 4 (by decide)⟩

end WeavingSim

namespace WeavingSim

/-! ## C2 and C3: thread_sequence -/

theorem getD_take {α : Type} (l : List α) (n i : Nat) (d : α) (h : i < n) :
    (l.take n).getD i d = l.getD i d := by
  induction l generalizing n i with
  | nil => simp
  | cons a l ih =>
    cases n with
    | zero => omega
    | succ n =>
      cases i with
      | zero => simp
      | succ i => simpa using ih n i (by omega)

theorem buildBase_ok (runs : List (String × Int)) (hpos : ∀ p ∈ runs, 0 < p.2) :
    buildBase runs = .ok (base_expansion runs) := by
  induction runs with
  | nil => rfl
  | cons p rest ih =>
    obtain ⟨color, n⟩ := p
    have hn : 0 < n := hpos (color, n) (by simp)
    have hrest : ∀ q ∈ rest, 0 < q.2 := fun q hq => hpos q (by simp [hq])
    simp only [buildBase]
    rw [if_neg (by omega), ih hrest]
    simp [base_expansion]

theorem buildBase_error (runs : List (String × Int)) (hbad : ∃ p ∈ runs, p.2 ≤ 0) :
    buildBase runs = .error "run lengths must be > 0" := by
  induction runs with
  | nil => simp at hbad
  | cons p rest ih =>
    obtain ⟨color, n⟩ := p
    simp only [buildBase]
    by_cases hn : n ≤ 0
    · rw [if_pos hn]
    · rw [if_neg hn]
      obtain ⟨q, hq, hq2⟩ := hbad
      rcases List.mem_cons.mp hq with h | h
      · rw [h] at hq2; simp at hq2; omega
      · rw [ih ⟨q, h, hq2⟩]

theorem base_expansion_pos (runs : List (String × Int)) (hne : runs ≠ [])
    (hpos : ∀ p ∈ runs, 0 < p.2) : 0 < (base_expansion runs).length := by
  obtain ⟨p, rest, rfl⟩ := List.exists_cons_of_ne_nil hne
  obtain ⟨color, n⟩ := p
  have hn : 0 < n := hpos (color, n) (by simp)
  have hn2 : 0 < n.toNat := by omega
  simp [base_expansion]
  omega

theorem extendLoop_structure (seq : List String) (count : Nat) :
    ∀ fuel out, ∃ m, extendLoop seq count out fuel = out ++ (List.replicate m seq).flatten := by
  intro fuel
  induction fuel with
  | zero => intro out; exact ⟨0, by simp [extendLoop]⟩
  | succ fuel ih =>
    intro out
    simp only [extendLoop]
    by_cases h : out.length < count
    · rw [if_pos h]
      obtain ⟨m, hm⟩ := ih (out ++ seq)
      exact ⟨m + 1, by rw [hm]; simp [List.replicate_succ, List.append_assoc]⟩
    · rw [if_neg h]; exact ⟨0, by simp⟩

theorem extendLoop_length (seq : List String) (count : Nat) :
    ∀ fuel out, count ≤ out.length + fuel * seq.length →
      count ≤ (extendLoop seq count out fuel).length := by
  intro fuel
  induction fuel with
  | zero => intro out h; simpa [extendLoop] using h
  | succ fuel ih =>
    intro out h
    simp only [extendLoop]
    by_cases hlt : out.length < count
    · rw [if_pos hlt]
      apply ih
      have hmul : (fuel + 1) * seq.length = fuel * seq.length + seq.length := by ring
      simp only [List.length_append]
      omega
    · rw [if_neg hlt]; omega

theorem getD_flatten_replicate {α : Type} (seq : List α) (d : α) :
    ∀ m i, i < m * seq.length →
      ((List.replicate m seq).flatten).getD i d = seq.getD (i % seq.length) d := by
  intro m
  induction m with
  | zero => intro i h; omega
  | succ m ih =>
    intro i h
    rw [List.replicate_succ, List.flatten_cons]
    by_cases hlt : i < seq.length
    · rw [List.getD_append _ _ _ _ hlt, Nat.mod_eq_of_lt hlt]
    · have hle : seq.length ≤ i := by omega
      rw [List.getD_append_right _ _ _ _ hle]
      have hmul : (m + 1) * seq.length = m * seq.length + seq.length := by ring
      rw [ih (i - seq.length) (by omega)]
      rw [← Nat.mod_eq_sub_mod hle]

theorem length_flatten_replicate {α : Type} (seq : List α) (m : Nat) :
    ((List.replicate m seq).flatten).length = m * seq.length := by
  induction m with
  | zero => simp
  | succ m ih =>
    rw [List.replicate_succ, List.flatten_cons, List.length_append, ih]
    ring

/-- C2: for a non-empty run list with all-positive lengths and `count > 0`,
`thread_sequence` returns exactly `count` elements, element `i` being
element `i mod base_length` of the base expansion. -/
theorem thread_sequence_cyclic (runs : List (String × Int)) (count : Int)
    (hne : runs ≠ []) (hpos : ∀ p ∈ runs, 0 < p.2) (hcount : 0 < count) :
    ∃ out, thread_sequence runs count = .ok out ∧ (out.length : Int) = count ∧
      ∀ i, i < out.length →
        out.getD i "" = (base_expansion runs).getD (i % (base_expansion runs).length) "" := by
  have hbb := buildBase_ok runs hpos
  have hLpos := base_expansion_pos runs hne hpos
  have hseq_ne : base_expansion runs ≠ [] := by
    intro hcon; rw [hcon] at hLpos; simp at hLpos
  obtain ⟨m, hm⟩ := extendLoop_structure (base_expansion runs) count.toNat count.toNat []
  simp only [List.nil_append] at hm
  have hbig_len :
      (extendLoop (base_expansion runs) count.toNat [] count.toNat).length
        = m * (base_expansion runs).length := by
    rw [hm, length_flatten_replicate]
  have hbig_ge : count.toNat ≤ (extendLoop (base_expansion runs) count.toNat [] count.toNat).length := by
    apply extendLoop_length
    simp only [List.length_nil, Nat.zero_add]
    exact Nat.le_mul_of_pos_right _ hLpos
  refine ⟨(extendLoop (base_expansion runs) count.toNat [] count.toNat).take count.toNat, ?_, ?_, ?_⟩
  · simp only [thread_sequence]
    rw [if_neg (by omega), hbb]
    simp [hseq_ne]
  · rw [List.length_take]
    omega
  · intro i hi
    rw [List.length_take] at hi
    rw [getD_take _ _ _ _ (by omega)]
    rw [hm, getD_flatten_replicate _ _ m i (by omega)]

theorem thread_sequence_cyclic_witness :
    ∃ out, thread_sequence [("#000000", 1), ("#ffffff", 1)] 6 = .ok out ∧
      (out.length : Int) = 6 ∧
      ∀ i, i < out.length →
        out.getD i "" = (base_expansion [("#000000", 1), ("#ffffff", 1)]).getD
          (i % (base_expansion [("#000000", 1), ("#ffffff", 1)]).length) "" :=
  thread_sequence_cyclic [("#000000", 1), ("#ffffff", 1)] 6 (by decide) (by decide) (by decide)

/-- C3: `thread_sequence` checks `count <= 0` first and returns an empty
sequence with no error; otherwise a non-positive run length anywhere in the
runs fails with the invalid-argument error `run lengths must be > 0`; an
empty run list (only reachable with `count > 0` and no bad run) fails with
the distinct invalid-argument error `runs must not be empty`; being
`Except`-valued, it never returns a partial result on failure. -/
theorem thread_sequence_check_order (runs : List (String × Int)) (count : Int) :
    (count ≤ 0 → thread_sequence runs count = .ok []) ∧
    (0 < count → (∃ p ∈ runs, p.2 ≤ 0) →
      thread_sequence runs count = .error "run lengths must be > 0") ∧
    (0 < count → runs = [] →
      thread_sequence runs count = .error "runs must not be empty") ∧
    "run lengths must be > 0" ≠ "runs must not be empty" := by
  refine ⟨?_, ?_, ?_, by decide⟩
  · intro h; simp [thread_sequence, h]
  · intro hc hbad
    simp only [thread_sequence]
    rw [if_neg (by omega), buildBase_error runs hbad]
  · intro hc h
    subst h
    simp only [thread_sequence]
    rw [if_neg (by omega)]
    simp [buildBase]

theorem thread_sequence_check_order_witness :
    thread_sequence [("#000", 0)] 5 = .error "run lengths must be > 0" ∧
    thread_sequence [] 5 = .error "runs must not be empty" ∧
    thread_sequence [("#000", 0)] 0 = .ok [] :=
  ⟨(thread_sequence_check_order [("#000", 0)] 5).2.1 (by decide) ⟨("#000", 0), by simp, by decide⟩,
   (thread_sequence_check_order [] 5).2.2.1 (by decide) rfl,
   (thread_sequence_check_order [("#000", 0)] 0).1 (by decide)⟩

end WeavingSim

namespace WeavingSim

/-! ## C8 and C9: render_weave validation -/

/-- C8: for a rectangular R×C matrix, `render_weave` rejects with an
invalid-argument error, before any drawing, every request whose matrix
dimensions mismatch the configured rows/cols (for nonempty matrices the
column count is checked too), every request whose warp color array length
differs from `cols`, and every request whose weft color array length
differs from `rows`; when a color-array check is the one that fires, its
message names the array and the dimension it must equal. -/
theorem render_weave_rejects_mismatch (pattern : List (List Bool)) (R C : Nat)
    (rcfg : RenderConfig) (ccfg : ColorConfig)
    (hrect : pattern.length = R ∧ ∀ row ∈ pattern, row.length = C) :
    (((R : Int) ≠ rcfg.rows ∨ (0 < R ∧ (C : Int) ≠ rcfg.cols)) →
      render_weave_checks pattern rcfg ccfg =
        .error "Pattern dimensions must match RenderConfig rows/cols") ∧
    ((ccfg.warp_thread_colors.length : Int) ≠ rcfg.cols →
      ∃ msg, render_weave_checks pattern rcfg ccfg = .error msg) ∧
    ((ccfg.weft_thread_colors.length : Int) ≠ rcfg.rows →
      ∃ msg, render_weave_checks pattern rcfg ccfg = .error msg) ∧
    ((R : Int) = rcfg.rows → (0 < R → (C : Int) = rcfg.cols) →
      (ccfg.warp_thread_colors.length : Int) ≠ rcfg.cols →
      render_weave_checks pattern rcfg ccfg =
        .error "warp_thread_colors length must equal cols") ∧
    ((R : Int) = rcfg.rows → (0 < R → (C : Int) = rcfg.cols) →
      (ccfg.warp_thread_colors.length : Int) = rcfg.cols →
      (ccfg.weft_thread_colors.length : Int) ≠ rcfg.rows →
      render_weave_checks pattern rcfg ccfg =
        .error "weft_thread_colors length must equal rows") := by
  obtain ⟨hlen, hrow⟩ := hrect
  have hhead : pattern ≠ [] → ((pattern.headD []).length : Int) = (C : Int) := by
    intro hne
    obtain ⟨p, rest, rfl⟩ := List.exists_cons_of_ne_nil hne
    simp [hrow p (by simp)]
  have hdims : (R : Int) = rcfg.rows → (0 < R → (C : Int) = rcfg.cols) →
      ¬ ((pattern.length : Int) ≠ rcfg.rows ∨
        (pattern ≠ [] ∧ ((pattern.headD []).length : Int) ≠ rcfg.cols)) := by
    intro hR hC
    push_neg
    constructor
    · rw [hlen]; exact hR
    · intro hne
      rw [hhead hne]
      apply hC
      have := List.length_pos.mpr hne
      omega
  refine ⟨?_, ?_, ?_, ?_, ?_⟩
  · intro hdis
    have hcond : (pattern.length : Int) ≠ rcfg.rows ∨
        (pattern ≠ [] ∧ ((pattern.headD []).length : Int) ≠ rcfg.cols) := by
      rcases hdis with h | ⟨hR, hC⟩
      · left; rw [hlen]; exact h
      · right
        have hne : pattern ≠ [] := by
          intro hcon
          rw [hcon] at hlen
          simp at hlen
          omega
        exact ⟨hne, by rw [hhead hne]; exact hC⟩
    simp only [render_weave_checks]
    rw [if_pos hcond]
  · intro hw
    simp only [render_weave_checks]
    by_cases h1 : (pattern.length : Int) ≠ rcfg.rows ∨
        (pattern ≠ [] ∧ ((pattern.headD []).length : Int) ≠ rcfg.cols)
    · rw [if_pos h1]; exact ⟨_, rfl⟩
    · rw [if_neg h1, if_pos hw]; exact ⟨_, rfl⟩
  · intro hw
    simp only [render_weave_checks]
    by_cases h1 : (pattern.length : Int) ≠ rcfg.rows ∨
        (pattern ≠ [] ∧ ((pattern.headD []).length : Int) ≠ rcfg.cols)
    · rw [if_pos h1]; exact ⟨_, rfl⟩
    · rw [if_neg h1]
      by_cases h2 : (ccfg.warp_thread_colors.length : Int) ≠ rcfg.cols
      · rw [if_pos h2]; exact ⟨_, rfl⟩
      · rw [if_neg h2, if_pos hw]; exact ⟨_, rfl⟩
  · intro hR hC hw
    simp only [render_weave_checks]
    rw [if_neg (hdims hR hC), if_pos hw]
  · intro hR hC hwok hweft
    simp only [render_weave_checks]
    rw [if_neg (hdims hR hC), if_neg (by simp [hwok]), if_pos hweft]

theorem render_weave_rejects_mismatch_witness :
    render_weave_checks [[true, false]] ⟨2, 3, 10, 4, 1, 0, false⟩
        ⟨["#000000", "#000000", "#000000"], ["#ffffff", "#ffffff"],
          "#ffffff", "#cccccc", 1.1, 0.9⟩
      = .error "Pattern dimensions must match RenderConfig rows/cols" :=
  (render_weave_rejects_mismatch [[true, false]] 1 2 ⟨2, 3, 10, 4, 1, 0, false⟩
    ⟨["#000000", "#000000", "#000000"], ["#ffffff", "#ffffff"], "#ffffff", "#cccccc", 1.1, 0.9⟩
    ⟨rfl, by decide⟩).1 (by decide)

/-- C9: the dimension check of `render_weave` inspects only the number of
rows and the length of the first row: whenever those match the configured
rows/cols (vacuously for an empty pattern, in particular when the
configured rows is 0), the outcome is decided by the color-array checks
alone, so ragged matrices are not rejected. -/
theorem render_weave_checks_first_row_only (pattern : List (List Bool))
    (rcfg : RenderConfig) (ccfg : ColorConfig)
    (hrows : (pattern.length : Int) = rcfg.rows)
    (hfirst : pattern = [] ∨ ((pattern.headD []).length : Int) = rcfg.cols) :
    render_weave_checks pattern rcfg ccfg =
      (if (ccfg.warp_thread_colors.length : Int) ≠ rcfg.cols then
        Except.error "warp_thread_colors length must equal cols"
      else if (ccfg.weft_thread_colors.length : Int) ≠ rcfg.rows then
        Except.error "weft_thread_colors length must equal rows"
      else Except.ok ()) := by
  have h1 : ¬ ((pattern.length : Int) ≠ rcfg.rows ∨
      (pattern ≠ [] ∧ ((pattern.headD []).length : Int) ≠ rcfg.cols)) := by
    push_neg
    refine ⟨hrows, ?_⟩
    intro hne
    rcases hfirst with h | h
    · exact absurd h hne
    · exact h
  simp only [render_weave_checks]
  rw [if_neg h1]

theorem render_weave_checks_first_row_only_witness :
    render_weave_checks [[true, true, true], [true]] ⟨2, 3, 10, 4, 1, 0, false⟩
        ⟨["#000000", "#000000", "#000000"], ["#ffffff", "#ffffff"],
          "#ffffff", "#cccccc", 1.1, 0.9⟩
      = .ok () ∧
    render_weave_checks [] ⟨0, 5, 10, 4, 1, 0, false⟩
        ⟨["#000000", "#000000", "#000000", "#000000", "#000000"], [],
          "#ffffff", "#cccccc", 1.1, 0.9⟩
      = .ok () := by
  constructor
  · rw [render_weave_checks_first_row_only _ _ _ (by decide) (Or.inr (by decide))]
    decide
  · rw [render_weave_checks_first_row_only _ _ _ (by decide) (Or.inl rfl)]
    decide

end WeavingSim

namespace WeavingSim

/-! ## Color utilities: character-level facts -/

theorem dropWhile_eq_self_of_all {p : Char → Bool} {l : List Char}
    (h : ∀ c ∈ l, p c = false) : l.dropWhile p = l := by
  cases l with
  | nil => rfl
  | cons a l => rw [List.dropWhile_cons_of_neg (by simp [h a (by simp)])]

theorem pyStrip_eq_self {l : List Char} (h : ∀ c ∈ l, isPySpace c = false) :
    pyStrip l = l := by
  simp only [pyStrip]
  rw [dropWhile_eq_self_of_all h]
  rw [dropWhile_eq_self_of_all (by intro c hc; exact h c (List.mem_reverse.mp hc))]
  exact List.reverse_reverse l

theorem allHex_not_space : ∀ c ∈ allHexChars, isPySpace c = false := by decide

theorem allHex_ne_hash : ∀ c ∈ allHexChars, c ≠ '#' := by decide

theorem hvNat_le : ∀ c ∈ allHexChars, hvNat c ≤ 15 := by decide

theorem lower_sub_all : ∀ c ∈ lowerHexChars, c ∈ allHexChars := by decide

theorem pyIntHex_pair : ∀ c1 ∈ allHexChars, ∀ c2 ∈ allHexChars,
    pyIntHex [c1, c2] = .ok (((16 * hvNat c1 + hvNat c2 : Nat) : Int)) := by decide

theorem toHex2_pair : ∀ c1 ∈ lowerHexChars, ∀ c2 ∈ lowerHexChars,
    toHex2 (16 * hvNat c1 + hvNat c2) = [c1, c2] := by decide

theorem hexChar_mem_lower : ∀ d : Nat, d < 16 → hexChar d ∈ lowerHexChars := by decide

theorem hvNat_hexChar : ∀ d : Nat, d < 16 → hvNat (hexChar d) = d := by decide

/-! ## Parsing a six-hex-digit string -/

theorem dropHash_hash (rest : List Char) : dropHash ('#' :: rest) = rest := by
  simp [dropHash]

theorem dropHash_cons_of_ne {c : Char} (h : c ≠ '#') (rest : List Char) :
    dropHash (c :: rest) = c :: rest := by
  simp [dropHash, h]

theorem hex_to_rgb_parse (s : String) (c1 c2 c3 c4 c5 c6 : Char)
    (hdata : s.data = ['#', c1, c2, c3, c4, c5, c6])
    (h : ∀ c ∈ [c1, c2, c3, c4, c5, c6], c ∈ allHexChars) :
    hex_to_rgb s = .ok (((16 * hvNat c1 + hvNat c2 : Nat) : Int),
      ((16 * hvNat c3 + hvNat c4 : Nat) : Int),
      ((16 * hvNat c5 + hvNat c6 : Nat) : Int)) := by
  have hstrip : pyStrip s.data = '#' :: [c1, c2, c3, c4, c5, c6] := by
    rw [hdata]
    apply pyStrip_eq_self
    intro c hc
    rcases List.mem_cons.mp hc with rfl | hc
    · rfl
    · exact allHex_not_space c (h c hc)
  simp only [hex_to_rgb]
  rw [hstrip, dropHash_hash]
  rw [if_neg (by simp)]
  rw [show ([c1, c2, c3, c4, c5, c6].take 2) = [c1, c2] from rfl]
  rw [show (([c1, c2, c3, c4, c5, c6].drop 2).take 2) = [c3, c4] from rfl]
  rw [show (([c1, c2, c3, c4, c5, c6].drop 4).take 2) = [c5, c6] from rfl]
  rw [pyIntHex_pair c1 (h c1 (by simp)) c2 (h c2 (by simp))]
  rw [pyIntHex_pair c3 (h c3 (by simp)) c4 (h c4 (by simp))]
  rw [pyIntHex_pair c5 (h c5 (by simp)) c6 (h c6 (by simp))]

theorem hex_to_rgb_parse_nohash (s : String) (c1 c2 c3 c4 c5 c6 : Char)
    (hdata : s.data = [c1, c2, c3, c4, c5, c6])
    (h : ∀ c ∈ [c1, c2, c3, c4, c5, c6], c ∈ allHexChars) :
    hex_to_rgb s = .ok (((16 * hvNat c1 + hvNat c2 : Nat) : Int),
      ((16 * hvNat c3 + hvNat c4 : Nat) : Int),
      ((16 * hvNat c5 + hvNat c6 : Nat) : Int)) := by
  have hstrip : pyStrip s.data = [c1, c2, c3, c4, c5, c6] := by
    rw [hdata]
    exact pyStrip_eq_self (fun c hc => allHex_not_space c (h c hc))
  simp only [hex_to_rgb]
  rw [hstrip, dropHash_cons_of_ne (allHex_ne_hash c1 (h c1 (by simp)))]
  rw [if_neg (by simp)]
  rw [show ([c1, c2, c3, c4, c5, c6].take 2) = [c1, c2] from rfl]
  rw [show (([c1, c2, c3, c4, c5, c6].drop 2).take 2) = [c3, c4] from rfl]
  rw [show (([c1, c2, c3, c4, c5, c6].drop 4).take 2) = [c5, c6] from rfl]
  rw [pyIntHex_pair c1 (h c1 (by simp)) c2 (h c2 (by simp))]
  rw [pyIntHex_pair c3 (h c3 (by simp)) c4 (h c4 (by simp))]
  rw [pyIntHex_pair c5 (h c5 (by simp)) c6 (h c6 (by simp))]

theorem pair_le_255 (c1 c2 : Char) (h1 : c1 ∈ allHexChars) (h2 : c2 ∈ allHexChars) :
    16 * hvNat c1 + hvNat c2 ≤ 255 := by
  have b1 := hvNat_le c1 h1
  have b2 := hvNat_le c2 h2
  omega

/-! ## C4: hex_to_rgb validation is leakier than claimed -/

/-- C4: evaluation of the code at the failing input. The string
`"-1-2-3"` has six characters after stripping and contains characters that
are not hex digits, yet `hex_to_rgb` accepts it — Python `int(s, 16)`
accepts a sign — and returns channel values outside `[0, 255]`. -/
theorem hex_to_rgb_accepts_nonhex :
    hex_to_rgb "-1-2-3" = .ok (-1, -2, -3) := by decide

end WeavingSim

namespace WeavingSim

/-! ## pyRound facts -/

theorem pyRound_intCast (n : Int) : pyRound ((n : ℚ)) = n := by
  simp only [pyRound]
  rw [Int.floor_intCast]
  norm_num

theorem floor_le_pyRound (q : ℚ) : ⌊q⌋ ≤ pyRound q := by
  simp only [pyRound]
  split_ifs <;> omega

theorem pyRound_le_floor_add_one (q : ℚ) : pyRound q ≤ ⌊q⌋ + 1 := by
  simp only [pyRound]
  split_ifs <;> omega

theorem le_pyRound_of_le {n : Int} {q : ℚ} (h : (n : ℚ) ≤ q) : n ≤ pyRound q := by
  have h1 : n ≤ ⌊q⌋ := Int.le_floor.mpr h
  have h2 := floor_le_pyRound q
  omega

theorem pyRound_le_of_lt {n : Int} {q : ℚ} (h : q < (n : ℚ)) : pyRound q ≤ n := by
  have h1 : ⌊q⌋ < n := Int.floor_lt.mpr h
  have h2 := pyRound_le_floor_add_one q
  omega

theorem pyRound_nonpos {q : ℚ} (h : q ≤ 0) : pyRound q ≤ 0 := by
  have hf : ⌊q⌋ ≤ 0 := by
    calc ⌊q⌋ ≤ ⌊(0 : ℚ)⌋ := Int.floor_le_floor h
    _ = 0 := Int.floor_zero
  simp only [pyRound]
  split_ifs with h1 h2 h3
  · exact hf
  · by_contra hcon
    push_neg at hcon
    have hf0 : ⌊q⌋ = 0 := by omega
    rw [hf0] at h2
    push_cast at h2
    linarith
  · exact hf
  · by_contra hcon
    push_neg at hcon
    have hf0 : ⌊q⌋ = 0 := by omega
    rw [hf0] at h3
    simp at h3

theorem clampChannel_eq_clamp_round_spec (q : ℚ) : clampChannel q = clamp_round_spec q := by
  simp only [clampChannel, clamp_round_spec]
  rcases le_or_lt q 0 with h | h
  · have hmin : min (255 : ℚ) q = q := min_eq_right (by linarith)
    have hmax : max (0 : ℚ) q = 0 := max_eq_left h
    rw [hmin, hmax]
    have h0 : pyRound (0 : ℚ) = 0 := by simpa using pyRound_intCast 0
    rw [h0]
    have := pyRound_nonpos h
    omega
  · rcases le_or_lt (255 : ℚ) q with h2 | h2
    · have hmin : min (255 : ℚ) q = 255 := min_eq_left h2
      rw [hmin]
      have hmax : max (0 : ℚ) (255 : ℚ) = 255 := by norm_num
      rw [hmax]
      have h255 : pyRound (255 : ℚ) = 255 := by
        have := pyRound_intCast 255
        simpa using this
      rw [h255]
      have : (255 : Int) ≤ pyRound q := le_pyRound_of_le (by push_cast; linarith)
      omega
    · have hmin : min (255 : ℚ) q = q := min_eq_right h2.le
      have hmax : max (0 : ℚ) q = q := max_eq_right h.le
      rw [hmin, hmax]
      have ha : (0 : Int) ≤ pyRound q := le_pyRound_of_le (by push_cast; linarith)
      have hb : pyRound q ≤ 255 := by
        have h1 : ⌊q⌋ < 255 := Int.floor_lt.mpr (by push_cast; linarith)
        have h2b := pyRound_le_floor_add_one q
        omega
      omega

theorem clampChannel_nonneg (q : ℚ) : 0 ≤ clampChannel q := by
  simp only [clampChannel]
  omega

theorem clampChannel_le_255 (q : ℚ) : clampChannel q ≤ 255 := by
  simp only [clampChannel]
  omega

end WeavingSim

namespace WeavingSim

/-! ## shade at factor 1 -/

theorem shade_one (s : String) (r g b : Int) (h : hex_to_rgb s = .ok (r, g, b))
    (hr0 : 0 ≤ r) (hr1 : r ≤ 255) (hg0 : 0 ≤ g) (hg1 : g ≤ 255)
    (hb0 : 0 ≤ b) (hb1 : b ≤ 255) :
    shade s 1 =
      .ok (String.mk ('#' :: (toHex2 r.toNat ++ toHex2 g.toNat ++ toHex2 b.toNat))) := by
  simp only [shade, h]
  rw [if_pos (le_refl (1 : ℚ))]
  have harg : ∀ x : Int, (x : ℚ) + (255 - (x : ℚ)) * (1 - 1) = (x : ℚ) := by
    intro x; ring
  rw [harg, harg, harg]
  simp only [rgb_to_hex, clampChannel, pyRound_intCast]
  rw [min_eq_right hr1, max_eq_right hr0, min_eq_right hg1, max_eq_right hg0,
      min_eq_right hb1, max_eq_right hb0]

/-- C5 (counterexample to the claim as frozen): the string "ABCDEF" is
accepted by hex_to_rgb, yet shade("ABCDEF", 1.0) returns the normalized
"#abcdef", not the original string, so factor 1.0 is not the identity on
every accepted color string. -/
theorem shade_c5_counterexample :
    hex_to_rgb "ABCDEF" = .ok (171, 205, 239) ∧ shade "ABCDEF" 1 ≠ .ok "ABCDEF" := by
  have h : hex_to_rgb "ABCDEF" = .ok (171, 205, 239) := by decide
  refine ⟨h, ?_⟩
  rw [shade_one "ABCDEF" 171 205 239 h (by norm_num) (by norm_num) (by norm_num)
    (by norm_num) (by norm_num) (by norm_num)]
  decide

/-- C5 (amended): shade with factor 1.0 is the identity on every canonical
color string, i.e. '#' followed by six lowercase hexadecimal digits. -/
theorem shade_one_identity (s : String) (c1 c2 c3 c4 c5 c6 : Char)
    (hdata : s.data = ['#', c1, c2, c3, c4, c5, c6])
    (h : ∀ c ∈ [c1, c2, c3, c4, c5, c6], c ∈ lowerHexChars) :
    shade s 1 = .ok s := by
  have hall : ∀ c ∈ [c1, c2, c3, c4, c5, c6], c ∈ allHexChars :=
    fun c hc => lower_sub_all c (h c hc)
  have hp := hex_to_rgb_parse s c1 c2 c3 c4 c5 c6 hdata hall
  have h12 := pair_le_255 c1 c2 (hall c1 (by simp)) (hall c2 (by simp))
  have h34 := pair_le_255 c3 c4 (hall c3 (by simp)) (hall c4 (by simp))
  have h56 := pair_le_255 c5 c6 (hall c5 (by simp)) (hall c6 (by simp))
  rw [shade_one s _ _ _ hp (by omega) (by omega) (by omega) (by omega) (by omega) (by omega)]
  simp only [Int.toNat_natCast]
  rw [toHex2_pair c1 (h c1 (by simp)) c2 (h c2 (by simp)),
      toHex2_pair c3 (h c3 (by simp)) c4 (h c4 (by simp)),
      toHex2_pair c5 (h c5 (by simp)) c6 (h c6 (by simp))]
  rw [show ('#' :: ([c1, c2] ++ [c3, c4] ++ [c5, c6])) = ['#', c1, c2, c3, c4, c5, c6] from rfl]
  rw [← hdata]

theorem shade_one_identity_witness : shade "#1c7bda" 1 = .ok "#1c7bda" :=
  shade_one_identity "#1c7bda" '1' 'c' '7' 'b' 'd' 'a' (by decide) (by decide)

/-! ## C6: the blend formula -/

/-- C6: shade computes each channel with the claim's single blend formula
(toward white for factor ≥ 1, toward black for factor < 1, selected only
by the factor, no separate mode flag) and formats the result through
rgb_to_hex; in particular shade("#ffffff", 0.5) = "#808080" and
shade("#000000", 1.5) = "#808080". -/
theorem shade_formula (color : String) (factor : ℚ) (r g b : Int)
    (h : hex_to_rgb color = .ok (r, g, b)) :
    shade color factor =
      .ok (rgb_to_hex (blend_spec r factor) (blend_spec g factor) (blend_spec b factor)) ∧
    shade "#ffffff" (1/2) = .ok "#808080" ∧
    shade "#000000" (3/2) = .ok "#808080" := by
  have hfloor : (⌊(255/2 : ℚ)⌋ : Int) = 127 := by norm_num
  have hround : pyRound (255/2 : ℚ) = 128 := by
    simp only [pyRound, hfloor]
    norm_num
  refine ⟨?_, ?_, ?_⟩
  · simp only [shade, h, blend_spec]
    by_cases hf : 1 ≤ factor
    · simp only [if_pos hf]
    · simp only [if_neg hf]
  · have h255 : hex_to_rgb "#ffffff" = .ok (255, 255, 255) := by decide
    simp only [shade, h255]
    rw [if_neg (by norm_num)]
    have harg : ((255 : Int) : ℚ) * (1/2) = 255/2 := by norm_num
    simp only [harg]
    simp only [rgb_to_hex, clampChannel, hround]
    decide
  · have h0 : hex_to_rgb "#000000" = .ok (0, 0, 0) := by decide
    simp only [shade, h0]
    rw [if_pos (by norm_num)]
    have harg : ((0 : Int) : ℚ) + (255 - ((0 : Int) : ℚ)) * (3/2 - 1) = 255/2 := by norm_num
    simp only [harg]
    simp only [rgb_to_hex, clampChannel, hround]
    decide

theorem shade_formula_witness :
    shade "#ffffff" 2 =
      .ok (rgb_to_hex (blend_spec 255 2) (blend_spec 255 2) (blend_spec 255 2)) :=
  (shade_formula "#ffffff" 2 255 255 255 (by decide)).1

end WeavingSim

namespace WeavingSim

/-! ## C7: rgb_to_hex / hex_to_rgb roundtrip -/

/-- C7: for all rational channel inputs (fractional or out of range),
parsing the formatted string recovers exactly the clamped-to-[0,255],
rounded-to-even triple, not the original inputs; and the formatted string
is always '#' followed by exactly six lowercase hexadecimal digits. -/
theorem rgb_hex_roundtrip (r g b : ℚ) :
    hex_to_rgb (rgb_to_hex r g b) =
      .ok (clamp_round_spec r, clamp_round_spec g, clamp_round_spec b) ∧
    ∃ rest, (rgb_to_hex r g b).data = '#' :: rest ∧ rest.length = 6 ∧
      ∀ c ∈ rest, c ∈ lowerHexChars := by
  have key : ∀ q : ℚ, ((16 * hvNat (hexChar ((clampChannel q).toNat / 16)) +
      hvNat (hexChar ((clampChannel q).toNat % 16)) : Nat) : Int) = clamp_round_spec q := by
    intro q
    have h0 := clampChannel_nonneg q
    have h1 := clampChannel_le_255 q
    rw [hvNat_hexChar _ (by omega), hvNat_hexChar _ (by omega)]
    rw [show 16 * ((clampChannel q).toNat / 16) + (clampChannel q).toNat % 16
      = (clampChannel q).toNat by omega]
    rw [Int.toNat_of_nonneg h0]
    exact clampChannel_eq_clamp_round_spec q
  have hmem : ∀ q : ℚ, hexChar ((clampChannel q).toNat / 16) ∈ lowerHexChars ∧
      hexChar ((clampChannel q).toNat % 16) ∈ lowerHexChars := by
    intro q
    have h0 := clampChannel_nonneg q
    have h1 := clampChannel_le_255 q
    exact ⟨hexChar_mem_lower _ (by omega), hexChar_mem_lower _ (by omega)⟩
  have hmemlist : ∀ c ∈ [hexChar ((clampChannel r).toNat / 16), hexChar ((clampChannel r).toNat % 16),
      hexChar ((clampChannel g).toNat / 16), hexChar ((clampChannel g).toNat % 16),
      hexChar ((clampChannel b).toNat / 16), hexChar ((clampChannel b).toNat % 16)],
      c ∈ allHexChars := by
    intro c hc
    fin_cases hc
    · exact lower_sub_all _ (hmem r).1
    · exact lower_sub_all _ (hmem r).2
    · exact lower_sub_all _ (hmem g).1
    · exact lower_sub_all _ (hmem g).2
    · exact lower_sub_all _ (hmem b).1
    · exact lower_sub_all _ (hmem b).2
  constructor
  · have hp := hex_to_rgb_parse (rgb_to_hex r g b)
      (hexChar ((clampChannel r).toNat / 16)) (hexChar ((clampChannel r).toNat % 16))
      (hexChar ((clampChannel g).toNat / 16)) (hexChar ((clampChannel g).toNat % 16))
      (hexChar ((clampChannel b).toNat / 16)) (hexChar ((clampChannel b).toNat % 16))
      rfl hmemlist
    rw [hp, key r, key g, key b]
  · refine ⟨[hexChar ((clampChannel r).toNat / 16), hexChar ((clampChannel r).toNat % 16),
      hexChar ((clampChannel g).toNat / 16), hexChar ((clampChannel g).toNat % 16),
      hexChar ((clampChannel b).toNat / 16), hexChar ((clampChannel b).toNat % 16)],
      rfl, rfl, ?_⟩
    intro c hc
    fin_cases hc
    · exact (hmem r).1
    · exact (hmem r).2
    · exact (hmem g).1
    · exact (hmem g).2
    · exact (hmem b).1
    · exact (hmem b).2

/-! ## C10: shade saturation on valid colors -/

theorem exists_six_of_length_eq {α : Type} :
    ∀ l : List α, l.length = 6 → ∃ a1 a2 a3 a4 a5 a6, l = [a1, a2, a3, a4, a5, a6] := by
  intro l h
  rcases l with _ | ⟨a1, l⟩
  · simp at h
  rcases l with _ | ⟨a2, l⟩
  · simp at h
  rcases l with _ | ⟨a3, l⟩
  · simp at h
  rcases l with _ | ⟨a4, l⟩
  · simp at h
  rcases l with _ | ⟨a5, l⟩
  · simp at h
  rcases l with _ | ⟨a6, l⟩
  · simp at h
  rcases l with _ | ⟨a7, l⟩
  · exact ⟨a1, a2, a3, a4, a5, a6, rfl⟩
  · simp at h

theorem hex_to_rgb_of_valid (s : String) (hv : valid_color s = true) :
    ∃ r g b : Int, hex_to_rgb s = .ok (r, g, b) ∧
      0 ≤ r ∧ r ≤ 255 ∧ 0 ≤ g ∧ g ≤ 255 ∧ 0 ≤ b ∧ b ≤ 255 := by
  simp only [valid_color, Bool.and_eq_true, beq_iff_eq, List.all_eq_true,
    decide_eq_true_eq] at hv
  obtain ⟨hlen, hhex⟩ := hv
  obtain ⟨c1, c2, c3, c4, c5, c6, hcs⟩ := exists_six_of_length_eq _ hlen
  have hhex6 : ∀ c ∈ [c1, c2, c3, c4, c5, c6], c ∈ allHexChars := by
    rw [hcs] at hhex
    exact hhex
  have h12 := pair_le_255 c1 c2 (hhex6 c1 (by simp)) (hhex6 c2 (by simp))
  have h34 := pair_le_255 c3 c4 (hhex6 c3 (by simp)) (hhex6 c4 (by simp))
  have h56 := pair_le_255 c5 c6 (hhex6 c5 (by simp)) (hhex6 c6 (by simp))
  rcases hd : s.data with _ | ⟨c0, rest⟩
  · rw [hd] at hcs
    simp [dropHash] at hcs
  · by_cases hc0 : c0 = '#'
    · subst hc0
      rw [hd, dropHash_hash] at hcs
      have hdata : s.data = ['#', c1, c2, c3, c4, c5, c6] := by rw [hd, hcs]
      exact ⟨_, _, _, hex_to_rgb_parse s c1 c2 c3 c4 c5 c6 hdata hhex6,
        by omega, by omega, by omega, by omega, by omega, by omega⟩
    · rw [hd, dropHash_cons_of_ne hc0] at hcs
      have hdata : s.data = [c1, c2, c3, c4, c5, c6] := by rw [hd, hcs]
      exact ⟨_, _, _, hex_to_rgb_parse_nohash s c1 c2 c3 c4 c5 c6 hdata hhex6,
        by omega, by omega, by omega, by omega, by omega, by omega⟩

/-- C10: for every valid color string (six hexadecimal digits with an
optional leading '#', the spec's data-model Color), shade never fails for
any factor, returns "#000000" whenever the factor is ≤ 0, and "#ffffff"
whenever the factor is ≥ 2.0, because the hex formatting clamps each
channel to [0, 255]. -/
theorem shade_saturates (s : String) (factor : ℚ) (hv : valid_color s = true) :
    (factor ≤ 0 → shade s factor = .ok "#000000") ∧
    ((2 : ℚ) ≤ factor → shade s factor = .ok "#ffffff") ∧
    (∃ out, shade s factor = .ok out) := by
  obtain ⟨r, g, b, hok, hr0, hr1, hg0, hg1, hb0, hb1⟩ := hex_to_rgb_of_valid s hv
  have hblack : ∀ q1 q2 q3 : ℚ, pyRound q1 ≤ 0 → pyRound q2 ≤ 0 → pyRound q3 ≤ 0 →
      rgb_to_hex q1 q2 q3 = "#000000" := by
    intro q1 q2 q3 h1 h2 h3
    simp only [rgb_to_hex, clampChannel]
    rw [show max 0 (min 255 (pyRound q1)) = 0 by omega,
        show max 0 (min 255 (pyRound q2)) = 0 by omega,
        show max 0 (min 255 (pyRound q3)) = 0 by omega]
    decide
  have hwhite : ∀ q1 q2 q3 : ℚ, 255 ≤ pyRound q1 → 255 ≤ pyRound q2 → 255 ≤ pyRound q3 →
      rgb_to_hex q1 q2 q3 = "#ffffff" := by
    intro q1 q2 q3 h1 h2 h3
    simp only [rgb_to_hex, clampChannel]
    rw [show max 0 (min 255 (pyRound q1)) = 255 by omega,
        show max 0 (min 255 (pyRound q2)) = 255 by omega,
        show max 0 (min 255 (pyRound q3)) = 255 by omega]
    decide
  refine ⟨?_, ?_, ?_⟩
  · intro hf
    have hchan : ∀ x : Int, 0 ≤ x → pyRound ((x : ℚ) * factor) ≤ 0 := by
      intro x hx
      apply pyRound_nonpos
      have hx2 : (0 : ℚ) ≤ (x : ℚ) := by exact_mod_cast hx
      exact mul_nonpos_iff.mpr (Or.inl ⟨hx2, hf⟩)
    simp only [shade, hok]
    rw [if_neg (by linarith)]
    rw [hblack _ _ _ (hchan r hr0) (hchan g hg0) (hchan b hb0)]
  · intro hf
    have hchan : ∀ x : Int, 0 ≤ x → x ≤ 255 →
        255 ≤ pyRound ((x : ℚ) + (255 - (x : ℚ)) * (factor - 1)) := by
      intro x hx hx255
      apply le_pyRound_of_le
      have hx2 : (x : ℚ) ≤ 255 := by exact_mod_cast hx255
      have hstep : (255 - (x : ℚ)) * 1 ≤ (255 - (x : ℚ)) * (factor - 1) :=
        mul_le_mul_of_nonneg_left (by linarith) (by linarith)
      push_cast
      linarith
    simp only [shade, hok]
    rw [if_pos (by linarith)]
    rw [hwhite _ _ _ (hchan r hr0 hr1) (hchan g hg0 hg1) (hchan b hb0 hb1)]
  · by_cases hf : 1 ≤ factor
    · exact ⟨_, by simp only [shade, hok]; rw [if_pos hf]⟩
    · exact ⟨_, by simp only [shade, hok]; rw [if_neg hf]⟩

theorem shade_saturates_witness :
    shade "#1c7bda" 0 = .ok "#000000" ∧ shade "#1c7bda" 2 = .ok "#ffffff" :=
  ⟨(shade_saturates "#1c7bda" 0 (by decide)).1 (by norm_num),
   (shade_saturates "#1c7bda" 2 (by decide)).2.1 (by norm_num)⟩

end WeavingSim

namespace WeavingSim

theorem rgb_hex_roundtrip_witness :
    hex_to_rgb (rgb_to_hex 300 (-5) (1/2)) =
      .ok (clamp_round_spec 300, clamp_round_spec (-5), clamp_round_spec (1/2)) :=
  (rgb_hex_roundtrip 300 (-5) (1/2)).1

end WeavingSim
